/-
Verification of the speech-to-phrase training pipeline
(`speech_to_phrase/train.py`, `speech_to_phrase/const.py`) against its
natural-language specification.

The Python code is shallowly embedded: pure text processing becomes Lean
functions on `String`/`List`, the stateful `train` orchestrator becomes a
function on an explicit file-system state, and external processes (Kaldi
stages, phonetisaurus) become parameters recording their outcome/output.
-/
import Mathlib

namespace SpeechToPhrase

/-! ### Constants (`const.py`) -/

def EPS : String := "<eps>"
def SIL : String := "SIL"
def SPN : String := "SPN"
def UNK : String := "<unk>"

/-! ### Whitespace splitting

Python's `str.split()` with no separator splits on runs of whitespace and
discards empty fields, which also discards leading/trailing whitespace. -/

def splitWhitespaceChars : List Char → List Char → List String
  | [], acc => if acc = [] then [] else [String.mk acc.reverse]
  | c :: cs, acc =>
    if c.isWhitespace then
      (if acc = [] then [] else [String.mk acc.reverse]) ++ splitWhitespaceChars cs []
    else
      splitWhitespaceChars cs (c :: acc)

def splitWhitespace (s : String) : List String :=
  splitWhitespaceChars s.toList []

/-! ### G2P fallback output parsing (`_create_lexicon`, lines 281-304)

Each line of phonetisaurus output is stripped, skipped when blank, and split
on whitespace.  Exactly 2 fields mean "no pronunciation could be guessed":
the word is written to the lexicon with the silence phone and logged as
unresolved.  Fewer fields are ignored.  3 or more fields are
`word rank phoneme...`: the word/phonemes pair is written both to the
lexicon and to the `missing_words_dictionary.txt` report. -/

inductive FallbackResult where
  | ignored : FallbackResult
  | unresolved (word : String) : FallbackResult
  | predicted (word : String) (phonemes : List String) : FallbackResult
deriving DecidableEq, Repr

def parseFallbackLine (line : String) : FallbackResult :=
  match splitWhitespace line with
  | [] => .ignored
  | [_] => .ignored
  | [w, _] => .unresolved w
  | w :: _ :: ps => .predicted w ps

/-- Lexicon entries contributed by the fallback output (in output order). -/
def fallbackDictEntries (output : List String) : List (String × List String) :=
  output.filterMap fun l =>
    match parseFallbackLine l with
    | .ignored => none
    | .unresolved w => some (w, [SIL])
    | .predicted w ps => some (w, ps)

/-- Entries written to the predicted-pronunciations report
(`missing_words_dictionary.txt`). -/
def fallbackReportEntries (output : List String) : List (String × List String) :=
  output.filterMap fun l =>
    match parseFallbackLine l with
    | .predicted w ps => some (w, ps)
    | _ => none

/-- Words logged as unresolved ("No pronunciation could be guessed"). -/
def fallbackUnresolvedWords (output : List String) : List String :=
  output.filterMap fun l =>
    match parseFallbackLine l with
    | .unresolved w => some w
    | _ => none

/-! ### Lexicographic string order (Python's `sorted` on `str`)

Python sorts strings by code-point lexicographic order.  We give a
computable comparison by structural recursion on the character lists so
that sorting reduces in the kernel. -/

def lexLeChars : List Char → List Char → Bool
  | [], _ => true
  | _ :: _, [] => false
  | a :: as, b :: bs =>
    if a.toNat < b.toNat then true
    else if b.toNat < a.toNat then false
    else lexLeChars as bs

def strLeRel (a b : String) : Prop :=
  lexLeChars a.toList b.toList = true

instance decStrLeRel : DecidableRel strLeRel := fun a b =>
  instDecidableEqBool (lexLeChars a.toList b.toList) true

theorem lexLeChars_total (as bs : List Char) :
    lexLeChars as bs = true ∨ lexLeChars bs as = true := by
  induction as generalizing bs with
  | nil => left; rfl
  | cons a as ih =>
    cases bs with
    | nil => right; rfl
    | cons b bs =>
      rcases Nat.lt_trichotomy a.toNat b.toNat with h | h | h
      · left; simp [lexLeChars, h]
      · have hba : ¬ b.toNat < a.toNat := by omega
        have hab : ¬ a.toNat < b.toNat := by omega
        rcases ih bs with hle | hle
        · left; simp [lexLeChars, hab, hba, hle]
        · right; simp [lexLeChars, hab, hba, hle]
      · right; simp [lexLeChars, h]

theorem lexLeChars_trans (as bs cs : List Char) (h1 : lexLeChars as bs = true)
    (h2 : lexLeChars bs cs = true) : lexLeChars as cs = true := by
  induction as generalizing bs cs with
  | nil => rfl
  | cons a as ih =>
    cases bs with
    | nil => simp [lexLeChars] at h1
    | cons b bs =>
      cases cs with
      | nil => simp [lexLeChars] at h2
      | cons c cs =>
        simp only [lexLeChars] at h1 h2 ⊢
        have hab_le : a.toNat ≤ b.toNat := by
          by_contra hgt
          simp [show ¬ a.toNat < b.toNat by omega,
            show b.toNat < a.toNat by omega] at h1
        have hbc_le : b.toNat ≤ c.toNat := by
          by_contra hgt
          simp [show ¬ b.toNat < c.toNat by omega,
            show c.toNat < b.toNat by omega] at h2
        by_cases hac : a.toNat < c.toNat
        · simp [hac]
        · simp only [show ¬ a.toNat < b.toNat by omega, if_false,
            show ¬ b.toNat < a.toNat by omega, if_false] at h1
          simp only [show ¬ b.toNat < c.toNat by omega, if_false,
            show ¬ c.toNat < b.toNat by omega, if_false] at h2
          simp only [hac, if_false, show ¬ c.toNat < a.toNat by omega,
            if_false]
          exact ih bs cs h1 h2

theorem lexLeChars_antisymm (as bs : List Char) (h1 : lexLeChars as bs = true)
    (h2 : lexLeChars bs as = true) : as = bs := by
  induction as generalizing bs with
  | nil =>
    cases bs with
    | nil => rfl
    | cons b bs => simp [lexLeChars] at h2
  | cons a as ih =>
    cases bs with
    | nil => simp [lexLeChars] at h1
    | cons b bs =>
      by_cases hab : a.toNat < b.toNat
      · simp [lexLeChars, show ¬ b.toNat < a.toNat by omega, hab] at h2
      · by_cases hba : b.toNat < a.toNat
        · simp [lexLeChars, hab, hba] at h1
        · have hn : a.toNat = b.toNat := by omega
          have hc : a = b := by
            have := congrArg Char.ofNat hn
            rwa [Char.ofNat_toNat, Char.ofNat_toNat] at this
          simp only [lexLeChars, hab, if_false, hba, if_false] at h1 h2
          rw [hc, ih bs h1 h2]

instance : IsTotal String strLeRel :=
  ⟨fun a b => lexLeChars_total a.toList b.toList⟩

instance : IsTrans String strLeRel :=
  ⟨fun a b c => lexLeChars_trans a.toList b.toList c.toList⟩

instance : IsAntisymm String strLeRel :=
  ⟨fun a b h1 h2 => by
    have := lexLeChars_antisymm a.toList b.toList h1 h2
    exact String.toList_inj.mp this⟩

/-- Python's `sorted` on a collection of strings. -/
def sortStrings (l : List String) : List String :=
  l.insertionSort strLeRel

theorem sortStrings_eq_of_perm {l₁ l₂ : List String} (h : l₁.Perm l₂) :
    sortStrings l₁ = sortStrings l₂ :=
  List.eq_of_perm_of_sorted
    (((List.perm_insertionSort strLeRel l₁).trans h).trans
      (List.perm_insertionSort strLeRel l₂).symm)
    (List.sorted_insertionSort strLeRel l₁)
    (List.sorted_insertionSort strLeRel l₂)

/-! ### Lexicon creation (`_create_lexicon`, lines 236-311)

`fst.words` is the vocabulary set of the base automaton; we pass it as a
list in arbitrary (set-iteration) order.  The pronunciation store
(`LexiconDatabase.lookup`) returns all pronunciation variants of a word.
The phonetisaurus output and the meta-label set (`fst.output_words -
fst.words`) are likewise parameters. -/

structure LexiconDatabase where
  lookup : String → List (List String)

/-- The store-resolved portion of `lexicon.txt`: iterate the vocabulary in
sorted order, skip the reserved unknown token, and emit one entry per
pronunciation variant returned by the store. -/
def storeLines (words : List String) (lexicon : LexiconDatabase) :
    List (String × List String) :=
  ((sortStrings words).filter (fun w => w != UNK)).flatMap
    (fun w => (lexicon.lookup w).map (fun pron => (w, pron)))

/-- The sorted list of words the store has no pronunciation for: collected
into `missing_words` during the iteration, then written to the
phonetisaurus word list with `sorted(missing_words)`. -/
def missingWords (words : List String) (lexicon : LexiconDatabase) :
    List String :=
  (sortStrings words).filter
    (fun w => w != UNK && (lexicon.lookup w).isEmpty)

/-- The full contents of `lexicon.txt` as written by `_create_lexicon`:
store-resolved entries, then (only when some word is missing) entries
parsed from the phonetisaurus output, then the fixed `<unk>` entry with
the model's noise phone, then one `SIL` entry per meta label
(`fst.output_words - fst.words`, passed here in set-iteration order). -/
def createLexicon (words : List String) (lexicon : LexiconDatabase)
    (fallbackOutput : List String) (metaLabels : List String)
    (spn_phone : String) : List (String × List String) :=
  storeLines words lexicon ++
    (if missingWords words lexicon = [] then []
      else fallbackDictEntries fallbackOutput) ++
    [(UNK, [spn_phone])] ++
    metaLabels.map (fun label => (label, [SIL]))

/-- Rendering of one lexicon entry as the line `print(word, phonemes_str)`
writes it: the word and the space-joined phonemes, space-separated. -/
def renderEntry (e : String × List String) : String :=
  e.1 ++ " " ++ String.intercalate " " e.2

/-! ### Helper lemmas about lists -/

theorem lexLeChars_refl (as : List Char) : lexLeChars as as = true := by
  induction as with
  | nil => rfl
  | cons a as ih => simp [lexLeChars, ih]

theorem strLeRel_refl (w : String) : strLeRel w w :=
  lexLeChars_refl w.toList

theorem filter_flatMap_comm {α β : Type} (l : List α) (f : α → List β)
    (p : β → Bool) :
    ((l.flatMap f).filter p) = l.flatMap (fun a => (f a).filter p) := by
  induction l with
  | nil => rfl
  | cons a l ih => simp [List.flatMap_cons, List.filter_append, ih]

theorem flatMap_eq_nil_of {β : Type} (l : List String) (f : String → List β)
    (h : ∀ v ∈ l, f v = []) : l.flatMap f = [] := by
  induction l with
  | nil => rfl
  | cons a l ih =>
    simp only [List.flatMap_cons, h a (List.mem_cons_self a l), List.nil_append]
    exact ih (fun v hv => h v (List.mem_cons_of_mem a hv))

theorem flatMap_eq_of_single {β : Type} {l : List String} {w : String}
    (hnd : l.Nodup) (hw : w ∈ l) (f : String → List β)
    (hz : ∀ v ∈ l, v ≠ w → f v = []) : l.flatMap f = f w := by
  induction l with
  | nil => cases hw
  | cons a l ih =>
    rcases List.mem_cons.mp hw with rfl | hw'
    · have hrest : l.flatMap f = [] :=
        flatMap_eq_nil_of l f (fun v hv =>
          hz v (List.mem_cons_of_mem _ hv)
            (fun heq => (List.nodup_cons.mp hnd).1 (heq ▸ hv)))
      simp [List.flatMap_cons, hrest]
    · have ha : f a = [] :=
        hz a (List.mem_cons_self a l)
          (fun heq => (List.nodup_cons.mp hnd).1 (heq ▸ hw'))
      simp only [List.flatMap_cons, ha, List.nil_append]
      exact ih (List.nodup_cons.mp hnd).2 hw'
        (fun v hv hne => hz v (List.mem_cons_of_mem a hv) hne)

theorem pairwise_flatMap_const {L : List String} (f : String → List String)
    (hL : L.Pairwise strLeRel) (hf : ∀ w, ∀ x ∈ f w, x = w) :
    (L.flatMap f).Pairwise strLeRel := by
  induction L with
  | nil => exact List.Pairwise.nil
  | cons a L ih =>
    rcases List.pairwise_cons.mp hL with ⟨ha, hL'⟩
    rw [List.flatMap_cons]
    rw [List.pairwise_append]
    refine ⟨?_, ih hL', ?_⟩
    · exact List.pairwise_of_forall_mem_list (fun x hx y hy => by
        rw [hf a x hx, hf a y hy]; exact strLeRel_refl a)
    · intro x hx y hy
      rcases List.mem_flatMap.mp hy with ⟨v, hv, hyv⟩
      rw [hf a x hx, hf v y hyv]
      exact ha v hv

theorem mem_sortStrings {a : String} {l : List String} :
    a ∈ sortStrings l ↔ a ∈ l :=
  (List.perm_insertionSort strLeRel l).mem_iff

theorem nodup_sortStrings {l : List String} (h : l.Nodup) :
    (sortStrings l).Nodup :=
  (List.perm_insertionSort strLeRel l).nodup_iff.mpr h

theorem sorted_sortStrings (l : List String) :
    (sortStrings l).Pairwise strLeRel :=
  List.sorted_insertionSort strLeRel l

/-! ### Theorem for claim C10 -/

/-- **C10.** `_create_lexicon` emits the store-resolved dictionary lines by
iterating the vocabulary in ascending lexicographic order, and the
missing-word list handed to phonetisaurus is likewise sorted; therefore
for a fixed vocabulary set (any two iteration orders of it, i.e. any two
permutations), store, and fallback output, the store-resolved portion of
the lexicon file and the missing-word list are byte-for-byte identical. -/
theorem store_portion_sorted_and_deterministic (l₁ l₂ : List String)
    (lexicon : LexiconDatabase) (hperm : l₁.Perm l₂) :
    ((storeLines l₁ lexicon).map Prod.fst).Pairwise strLeRel ∧
    (missingWords l₁ lexicon).Pairwise strLeRel ∧
    (storeLines l₁ lexicon).map renderEntry =
      (storeLines l₂ lexicon).map renderEntry ∧
    missingWords l₁ lexicon = missingWords l₂ lexicon := by
  have hsort : sortStrings l₁ = sortStrings l₂ := sortStrings_eq_of_perm hperm
  refine ⟨?_, ?_, ?_, ?_⟩
  · rw [show (storeLines l₁ lexicon).map Prod.fst =
        ((sortStrings l₁).filter (fun w => w != UNK)).flatMap
          (fun w => ((lexicon.lookup w).map (fun pron => (w, pron))).map
            Prod.fst) from by
      simp [storeLines, List.map_flatMap]]
    refine pairwise_flatMap_const _ ?_ ?_
    · exact (sorted_sortStrings l₁).filter _
    · intro w x hx
      rcases List.mem_map.mp hx with ⟨e, he, rfl⟩
      rcases List.mem_map.mp he with ⟨pron, _, rfl⟩
      rfl
  · exact (sorted_sortStrings l₁).filter _
  · unfold storeLines
    rw [hsort]
  · unfold missingWords
    rw [hsort]

/-- Witness for C10 on a concrete two-element vocabulary given in two
different orders. -/
theorem store_portion_sorted_and_deterministic_witness :
    (["light", "on"].Perm ["on", "light"]) ∧
    (storeLines ["light", "on"]
        ⟨fun w => if w = "light" then [["l", "ai", "t"]] else []⟩).map
        renderEntry =
      (storeLines ["on", "light"]
        ⟨fun w => if w = "light" then [["l", "ai", "t"]] else []⟩).map
        renderEntry ∧
    missingWords ["light", "on"]
        ⟨fun w => if w = "light" then [["l", "ai", "t"]] else []⟩ =
      missingWords ["on", "light"]
        ⟨fun w => if w = "light" then [["l", "ai", "t"]] else []⟩ := by
  have h := store_portion_sorted_and_deterministic ["light", "on"]
    ["on", "light"] ⟨fun w => if w = "light" then [["l", "ai", "t"]] else []⟩
    (by decide)
  exact ⟨by decide, h.2.2.1, h.2.2.2⟩

/-! ### Supporting lemmas for the lexicon claims -/

theorem mem_missingWords {w : String} {words : List String}
    {lexicon : LexiconDatabase} :
    w ∈ missingWords words lexicon ↔
      w ∈ words ∧ w ≠ UNK ∧ lexicon.lookup w = [] := by
  unfold missingWords
  simp [List.mem_filter, mem_sortStrings, List.isEmpty_iff, and_assoc]

theorem mem_storeLines {e : String × List String} {words : List String}
    {lexicon : LexiconDatabase} (he : e ∈ storeLines words lexicon) :
    e.1 ∈ words ∧ e.1 ≠ UNK ∧ e.2 ∈ lexicon.lookup e.1 := by
  unfold storeLines at he
  rcases List.mem_flatMap.mp he with ⟨v, hv, hev⟩
  rcases List.mem_map.mp hev with ⟨pron, hpron, rfl⟩
  rcases List.mem_filter.mp hv with ⟨hv', hvunk⟩
  exact ⟨mem_sortStrings.mp hv', by simpa using hvunk, hpron⟩

theorem storeLines_filter_eq {words : List String} {lexicon : LexiconDatabase}
    {w : String} (hnd : words.Nodup) (hw : w ∈ words) (hunk : w ≠ UNK) :
    (storeLines words lexicon).filter (fun e => e.1 == w) =
      (lexicon.lookup w).map (fun pron => (w, pron)) := by
  unfold storeLines
  rw [filter_flatMap_comm]
  rw [flatMap_eq_of_single ((nodup_sortStrings hnd).filter _)
    (List.mem_filter.mpr ⟨mem_sortStrings.mpr hw, by simp [hunk]⟩) _ ?_]
  · apply List.filter_eq_self.mpr
    intro e he
    rcases List.mem_map.mp he with ⟨pron, _, rfl⟩
    simp
  · intro v hv hne
    apply List.filter_eq_nil_iff.mpr
    intro e he
    rcases List.mem_map.mp he with ⟨pron, _, rfl⟩
    simp [hne]

theorem filter_beq_of_nodup {l : List String} {m : String} (hnd : l.Nodup)
    (hm : m ∈ l) : l.filter (fun x => x == m) = [m] := by
  induction l with
  | nil => cases hm
  | cons a l ih =>
    rcases List.nodup_cons.mp hnd with ⟨hal, hl⟩
    rcases List.mem_cons.mp hm with rfl | hm'
    · have h0 : l.filter (fun x => x == m) = [] :=
        List.filter_eq_nil_iff.mpr (fun x hx => by
          simp only [beq_iff_eq]
          rintro rfl
          exact hal hx)
      simp [List.filter_cons, h0]
    · have hna : a ≠ m := fun heq => hal (heq ▸ hm')
      simp [List.filter_cons, hna, ih hl hm']

/-! ### Theorem for claim C3 -/

/-- **C3.** The dictionary written by `_create_lexicon` covers every
vocabulary word and every meta label: for each store-resolved word other
than the reserved `<unk>` token the dictionary's lines for that word are
exactly one line per pronunciation returned by the store (all variants
retained, none deduplicated); every vocabulary word other than `<unk>`
has at least one line (via the fallback entries for words the store
misses, assuming the fallback output covers the missing-word list it was
given); the lines whose word is `<unk>` are exactly the single line
mapping it to the model's noise phone; and the lines for each meta label
are exactly the single line mapping it to the silence phone. -/
theorem lexicon_coverage (words : List String) (lexicon : LexiconDatabase)
    (fallbackOutput : List String) (metaLabels : List String)
    (spn_phone : String)
    (hw : words.Nodup) (hm : metaLabels.Nodup)
    (hdisj : ∀ m ∈ metaLabels, m ∉ words)
    (hum : UNK ∉ metaLabels)
    (hfb : ∀ e ∈ fallbackDictEntries fallbackOutput,
      e.1 ∈ missingWords words lexicon)
    (hcov : ∀ w ∈ missingWords words lexicon,
      ∃ ps, (w, ps) ∈ fallbackDictEntries fallbackOutput) :
    (∀ w ∈ words, w ≠ UNK → lexicon.lookup w ≠ [] →
      (createLexicon words lexicon fallbackOutput metaLabels spn_phone).filter
          (fun e => e.1 == w) =
        (lexicon.lookup w).map (fun pron => (w, pron))) ∧
    (∀ w ∈ words, w ≠ UNK →
      ∃ ps, (w, ps) ∈
        createLexicon words lexicon fallbackOutput metaLabels spn_phone) ∧
    (createLexicon words lexicon fallbackOutput metaLabels spn_phone).filter
        (fun e => e.1 == UNK) = [(UNK, [spn_phone])] ∧
    (∀ m ∈ metaLabels,
      (createLexicon words lexicon fallbackOutput metaLabels spn_phone).filter
          (fun e => e.1 == m) = [(m, [SIL])]) := by
  have hB : ∀ w : String, w ∉ missingWords words lexicon →
      ((if missingWords words lexicon = [] then []
        else fallbackDictEntries fallbackOutput).filter
          (fun e => e.1 == w)) = [] := by
    intro w hwm
    split
    · simp
    · apply List.filter_eq_nil_iff.mpr
      intro e he hbeq
      rw [beq_iff_eq] at hbeq
      exact hwm (hbeq ▸ hfb e he)
  have hA_nil : ∀ w : String, w ∉ words →
      (storeLines words lexicon).filter (fun e => e.1 == w) = [] := by
    intro w hwv
    apply List.filter_eq_nil_iff.mpr
    intro e he hbeq
    rw [beq_iff_eq] at hbeq
    exact hwv (hbeq ▸ (mem_storeLines he).1)
  have hD_nil : ∀ w : String, w ∉ metaLabels →
      ((metaLabels.map (fun label => (label, ([SIL] : List String)))).filter
        (fun e => e.1 == w)) = [] := by
    intro w hwm
    apply List.filter_eq_nil_iff.mpr
    intro e he hbeq
    rw [beq_iff_eq] at hbeq
    rcases List.mem_map.mp he with ⟨label, hlabel, rfl⟩
    exact hwm (hbeq ▸ hlabel)
  refine ⟨?_, ?_, ?_, ?_⟩
  · intro w hwv hunk hl
    have hwm : w ∉ missingWords words lexicon := fun h =>
      hl (mem_missingWords.mp h).2.2
    simp only [createLexicon, List.filter_append]
    rw [storeLines_filter_eq hw hwv hunk, hB w hwm,
      hD_nil w (fun h => hdisj w h hwv)]
    simp [Ne.symm hunk]
  · intro w hwv hunk
    by_cases hl : lexicon.lookup w = []
    · have hwm : w ∈ missingWords words lexicon :=
        mem_missingWords.mpr ⟨hwv, hunk, hl⟩
      rcases hcov w hwm with ⟨ps, hps⟩
      refine ⟨ps, ?_⟩
      simp only [createLexicon, List.mem_append]
      left; left; right
      rw [if_neg (List.ne_nil_of_mem hwm)]
      exact hps
    · rcases List.exists_mem_of_ne_nil _ hl with ⟨pron, hpron⟩
      refine ⟨pron, ?_⟩
      simp only [createLexicon, List.mem_append]
      left; left; left
      exact List.mem_flatMap.mpr ⟨w,
        List.mem_filter.mpr ⟨mem_sortStrings.mpr hwv, bne_iff_ne.mpr hunk⟩,
        List.mem_map.mpr ⟨pron, hpron, rfl⟩⟩
  · have hunk_miss : UNK ∉ missingWords words lexicon := fun h =>
      (mem_missingWords.mp h).2.1 rfl
    have hunk_store : (storeLines words lexicon).filter
        (fun e => e.1 == UNK) = [] := by
      apply List.filter_eq_nil_iff.mpr
      intro e he hbeq
      rw [beq_iff_eq] at hbeq
      exact (mem_storeLines he).2.1 hbeq
    simp only [createLexicon, List.filter_append]
    rw [hunk_store, hB UNK hunk_miss, hD_nil UNK hum]
    simp
  · intro m hmm
    have hmw : m ∉ words := hdisj m hmm
    have hmm_miss : m ∉ missingWords words lexicon := fun h =>
      hmw (mem_missingWords.mp h).1
    have hmunk : m ≠ UNK := fun h => hum (h ▸ hmm)
    simp only [createLexicon, List.filter_append]
    rw [hA_nil m hmw, hB m hmm_miss]
    have hD : ((metaLabels.map
        (fun label => (label, ([SIL] : List String)))).filter
          (fun e => e.1 == m)) = [(m, [SIL])] := by
      rw [List.filter_map]
      have hcomp : ((fun e : String × List String => e.1 == m) ∘
          (fun label => (label, ([SIL] : List String)))) =
          (fun label => label == m) := rfl
      rw [hcomp, filter_beq_of_nodup hm hmm]
      rfl
    rw [hD]
    simp [Ne.symm hmunk, hmunk]

/-- Witness for C3 at the spec's concrete example: vocabulary
`{"light", "on", "<unk>"}`, store with entries for `light` and `on`, meta
label `_on`, noise phone `SPN`, no fallback output. -/
theorem lexicon_coverage_witness :
    createLexicon ["light", "on", UNK]
        ⟨fun w => if w = "light" then [["l", "ai", "t"]]
          else if w = "on" then [["o", "n"]] else []⟩
        [] ["_on"] SPN =
      [("light", ["l", "ai", "t"]), ("on", ["o", "n"]),
        (UNK, [SPN]), ("_on", [SIL])] ∧
    (createLexicon ["light", "on", UNK]
        ⟨fun w => if w = "light" then [["l", "ai", "t"]]
          else if w = "on" then [["o", "n"]] else []⟩
        [] ["_on"] SPN).filter (fun e => e.1 == "light") =
      [("light", ["l", "ai", "t"])] ∧
    (createLexicon ["light", "on", UNK]
        ⟨fun w => if w = "light" then [["l", "ai", "t"]]
          else if w = "on" then [["o", "n"]] else []⟩
        [] ["_on"] SPN).filter (fun e => e.1 == UNK) = [(UNK, [SPN])] ∧
    (createLexicon ["light", "on", UNK]
        ⟨fun w => if w = "light" then [["l", "ai", "t"]]
          else if w = "on" then [["o", "n"]] else []⟩
        [] ["_on"] SPN).filter (fun e => e.1 == "_on") = [("_on", [SIL])] := by
  have h := lexicon_coverage ["light", "on", UNK]
    ⟨fun w => if w = "light" then [["l", "ai", "t"]]
      else if w = "on" then [["o", "n"]] else []⟩
    [] ["_on"] SPN
    (by decide) (by decide)
    (by decide) (by decide)
    (by intro e he; cases he)
    (by
      intro x hx
      have hmw : missingWords ["light", "on", UNK]
          ⟨fun w => if w = "light" then [["l", "ai", "t"]]
            else if w = "on" then [["o", "n"]] else []⟩ = [] := by decide
      rw [hmw] at hx
      cases hx)
  refine ⟨by decide, ?_, h.2.2.1, h.2.2.2 "_on" (by decide)⟩
  exact h.1 "light" (by decide) (by decide) (by decide)

/-! ### Theorems for claim C4 -/

/-- **C4.** Parsing one line of G2P fallback output (split on whitespace):
fewer than 2 tokens is ignored (no lexicon entry, no report entry, no
unresolved word); exactly 2 tokens maps the first token to the single
silence phone `SIL` in the lexicon and reports it unresolved; 3 or more
tokens maps the first token to the tokens after the rank token in the
lexicon, and the same entry is written to the predicted-pronunciations
report. -/
theorem fallback_line_parsing (line : String) :
    ((splitWhitespace line).length < 2 →
      fallbackDictEntries [line] = [] ∧
      fallbackReportEntries [line] = [] ∧
      fallbackUnresolvedWords [line] = []) ∧
    ((splitWhitespace line).length = 2 →
      fallbackDictEntries [line] = [((splitWhitespace line).headD "", [SIL])] ∧
      fallbackReportEntries [line] = [] ∧
      fallbackUnresolvedWords [line] = [(splitWhitespace line).headD ""]) ∧
    (2 < (splitWhitespace line).length →
      fallbackDictEntries [line] =
        [((splitWhitespace line).headD "", (splitWhitespace line).drop 2)] ∧
      fallbackReportEntries [line] = fallbackDictEntries [line]) := by
  rcases h : splitWhitespace line with _ | ⟨w, _ | ⟨r, _ | ⟨p, ps⟩⟩⟩ <;>
    simp [fallbackDictEntries, fallbackReportEntries, fallbackUnresolvedWords,
      parseFallbackLine, h]

/-- Witness for C4 at the spec's concrete examples: `"gizmo 1 g ih z m ow"`
(3+ tokens), `"foo 0"` (2 tokens) and `"bad"` (1 token). -/
theorem fallback_line_parsing_witness :
    (fallbackDictEntries ["gizmo 1 g ih z m ow"] =
        [("gizmo", ["g", "ih", "z", "m", "ow"])] ∧
      fallbackReportEntries ["gizmo 1 g ih z m ow"] =
        fallbackDictEntries ["gizmo 1 g ih z m ow"]) ∧
    (fallbackDictEntries ["foo 0"] = [("foo", [SIL])] ∧
      fallbackReportEntries ["foo 0"] = [] ∧
      fallbackUnresolvedWords ["foo 0"] = ["foo"]) ∧
    fallbackDictEntries ["bad"] = [] := by
  refine ⟨?_, ?_, ?_⟩
  · have h := (fallback_line_parsing "gizmo 1 g ih z m ow").2.2 (by decide)
    have hs : splitWhitespace "gizmo 1 g ih z m ow" =
        ["gizmo", "1", "g", "ih", "z", "m", "ow"] := by decide
    rw [hs] at h
    exact ⟨h.1, h.2⟩
  · have h := (fallback_line_parsing "foo 0").2.1 (by decide)
    have hs : splitWhitespace "foo 0" = ["foo", "0"] := by decide
    rw [hs] at h
    exact h
  · exact ((fallback_line_parsing "bad").1 (by decide)).1

/-! ### Fuzzy FST creation (`_create_fuzzy_fst`, lines 404-448)

The base automaton text (`G.arpa.fst.txt`) is read line by line; each line
is stripped and, when non-blank, copied unchanged to the fuzzy automaton
text, while the first whitespace-separated token (the source state) is
collected into a set.  Afterwards, for every collected state, one epsilon
self-loop at weight 0.0 and one self-loop per non-meta vocabulary word at
weight 1.0 are appended. -/

/-- Python's `str.strip()`: remove leading and trailing whitespace. -/
def strip (s : String) : String :=
  String.mk
    (((s.toList.dropWhile Char.isWhitespace).reverse.dropWhile
      Char.isWhitespace).reverse)

/-- The stripped non-blank input lines, in order: exactly the lines copied
to the fuzzy automaton text. -/
def keptLines (inputLines : List String) : List String :=
  (inputLines.map strip).filter (fun l => l != "")

/-- `line.split(maxsplit=1)[0]`: the first whitespace-separated token. -/
def firstToken (line : String) : String :=
  (splitWhitespace line).headD ""

/-- First-seen-order deduplication, mirroring incremental insertion into
the `states` set during the copy loop. -/
def dedupFirstAux : List String → List String → List String
  | [], acc => acc.reverse
  | x :: xs, acc =>
    if acc.contains x then dedupFirstAux xs acc
    else dedupFirstAux xs (x :: acc)

def dedupFirst (l : List String) : List String :=
  dedupFirstAux l []

/-- The distinct source states of the base automaton, i.e. the contents of
the `states` set after the copy loop. -/
def sourceStates (inputLines : List String) : List String :=
  dedupFirst ((keptLines inputLines).map firstToken)

/-- One printed transition line `source dest ilabel olabel weight`; the
weight field is kept as the exact text Python's `print` produces for the
float literals `0.0` and `1.0`. -/
structure Transition where
  src : String
  dst : String
  ilabel : String
  olabel : String
  weight : String
deriving DecidableEq, Repr

/-- `word[0] in ("<", "_")`: words starting with a reserved marker are
skipped in self-loop generation.  (Python would raise on an empty word;
the claims are stated for non-empty vocabulary words.) -/
def isMetaWord (w : String) : Bool :=
  match w.toList with
  | [] => false
  | c :: _ => c == '<' || c == '_'

/-- The self-loops appended for one state: the epsilon loop at weight 0.0
first, then one loop per non-meta vocabulary word at weight 1.0. -/
def selfLoops (words : List String) (state : String) : List Transition :=
  ⟨state, state, EPS, EPS, "0.0"⟩ ::
    (words.filter (fun w => !(isMetaWord w))).map
      (fun w => ⟨state, state, w, EPS, "1.0"⟩)

/-- All appended self-loops, per collected source state. -/
def fuzzyLoops (inputLines words : List String) : List Transition :=
  (sourceStates inputLines).flatMap (selfLoops words)

/-- Rendering of a transition as `print(src, dst, ilabel, olabel, weight)`
writes it. -/
def renderTransition (t : Transition) : String :=
  t.src ++ " " ++ t.dst ++ " " ++ t.ilabel ++ " " ++ t.olabel ++ " " ++
    t.weight

/-- The full text of `G.fuzzy.fst.txt` (as a list of lines): the copied
base transitions followed by the rendered self-loops. -/
def fuzzyLines (inputLines words : List String) : List String :=
  keptLines inputLines ++ (fuzzyLoops inputLines words).map renderTransition

theorem mem_dedupFirstAux {x : String} {l acc : List String} :
    x ∈ dedupFirstAux l acc ↔ x ∈ acc ∨ x ∈ l := by
  induction l generalizing acc with
  | nil => simp [dedupFirstAux]
  | cons a l ih =>
    simp only [dedupFirstAux]
    by_cases ha : acc.contains a
    · rw [if_pos ha, ih]
      have hmem : a ∈ acc := List.elem_iff.mp ha
      constructor
      · rintro (h | h)
        · exact Or.inl h
        · exact Or.inr (List.mem_cons_of_mem a h)
      · rintro (h | h)
        · exact Or.inl h
        · rcases List.mem_cons.mp h with rfl | h'
          · exact Or.inl hmem
          · exact Or.inr h'
    · rw [if_neg ha, ih]
      simp only [List.mem_cons]
      tauto

theorem nodup_dedupFirstAux {l acc : List String} (h : acc.Nodup) :
    (dedupFirstAux l acc).Nodup := by
  induction l generalizing acc with
  | nil => simpa [dedupFirstAux] using h
  | cons a l ih =>
    simp only [dedupFirstAux]
    by_cases ha : acc.contains a
    · rw [if_pos ha]; exact ih h
    · rw [if_neg ha]
      refine ih (List.nodup_cons.mpr ⟨?_, h⟩)
      intro hmem
      exact ha (List.elem_iff.mpr hmem)

theorem mem_sourceStates {s : String} {inputLines : List String} :
    s ∈ sourceStates inputLines ↔
      s ∈ (keptLines inputLines).map firstToken := by
  unfold sourceStates dedupFirst
  rw [mem_dedupFirstAux]
  simp

theorem nodup_sourceStates (inputLines : List String) :
    (sourceStates inputLines).Nodup :=
  nodup_dedupFirstAux List.nodup_nil

theorem src_mem_selfLoops {t : Transition} {words : List String}
    {state : String} (h : t ∈ selfLoops words state) : t.src = state := by
  unfold selfLoops at h
  rcases List.mem_cons.mp h with rfl | h'
  · rfl
  · rcases List.mem_map.mp h' with ⟨w, _, rfl⟩
    rfl

theorem count_selfLoops_eps (words : List String) (s s' : String) :
    (selfLoops words s').count ⟨s, s, EPS, EPS, "0.0"⟩ =
      if s' = s then 1 else 0 := by
  unfold selfLoops
  rcases eq_or_ne s' s with rfl | hne
  · rw [if_pos rfl, List.count_cons_self]
    have h0 : List.count (⟨s', s', EPS, EPS, "0.0"⟩ : Transition)
        ((words.filter (fun w => !(isMetaWord w))).map
          (fun w => (⟨s', s', w, EPS, "1.0"⟩ : Transition))) = 0 := by
      apply List.count_eq_zero.mpr
      intro hmem
      rcases List.mem_map.mp hmem with ⟨w, _, heq⟩
      have hwt : ("1.0" : String) = "0.0" := congrArg Transition.weight heq
      exact absurd hwt (by decide)
    rw [h0]
  · rw [if_neg hne]
    apply List.count_eq_zero.mpr
    intro hmem
    rcases List.mem_cons.mp hmem with heq | h'
    · have hsrc : s = s' := congrArg Transition.src heq
      exact hne hsrc.symm
    · rcases List.mem_map.mp h' with ⟨w, _, heq⟩
      have hsrc : s' = s := congrArg Transition.src heq
      exact hne hsrc

theorem count_selfLoops_word (words : List String) (s s' w : String)
    (hw : words.Nodup) (hmeta : isMetaWord w = false) (hwin : w ∈ words) :
    (selfLoops words s').count ⟨s, s, w, EPS, "1.0"⟩ =
      if s' = s then 1 else 0 := by
  unfold selfLoops
  rcases eq_or_ne s' s with rfl | hne
  · rw [if_pos rfl]
    rw [List.count_cons_of_ne (by
      intro heq
      have hwt : ("1.0" : String) = "0.0" := congrArg Transition.weight heq
      exact absurd hwt (by decide))]
    have hinj : Function.Injective
        (fun v => (⟨s', s', v, EPS, "1.0"⟩ : Transition)) := by
      intro x y hxy
      exact congrArg Transition.ilabel hxy
    rw [List.count_map_of_injective _ _ hinj]
    exact List.count_eq_one_of_mem (hw.filter _)
      (List.mem_filter.mpr ⟨hwin, by simp [hmeta]⟩)
  · rw [if_neg hne]
    apply List.count_eq_zero.mpr
    intro hmem
    rcases List.mem_cons.mp hmem with heq | h'
    · have hsrc : s = s' := congrArg Transition.src heq
      exact hne hsrc.symm
    · rcases List.mem_map.mp h' with ⟨v, _, heq⟩
      have hsrc : s' = s := congrArg Transition.src heq
      exact hne hsrc

theorem count_flatMap_zero {β : Type} [DecidableEq β] (L : List String)
    (f : String → List β) (t : β) (h : ∀ s' ∈ L, (f s').count t = 0) :
    (L.flatMap f).count t = 0 := by
  induction L with
  | nil => rfl
  | cons a L ih =>
    rw [List.flatMap_cons, List.count_append,
      h a (List.mem_cons_self a L),
      ih (fun s' hs' => h s' (List.mem_cons_of_mem a hs'))]

theorem count_flatMap_single {β : Type} [DecidableEq β] {L : List String}
    (f : String → List β) (t : β) {s : String} (hnd : L.Nodup) (hs : s ∈ L)
    (hcount : ∀ s' ∈ L, (f s').count t = if s' = s then 1 else 0) :
    (L.flatMap f).count t = 1 := by
  induction L with
  | nil => cases hs
  | cons a L ih =>
    rw [List.flatMap_cons, List.count_append]
    rcases List.mem_cons.mp hs with rfl | hs'
    · rw [hcount s (List.mem_cons_self s L), if_pos rfl,
        count_flatMap_zero L f t (fun s' hs' => by
          rw [hcount s' (List.mem_cons_of_mem s hs'), if_neg]
          intro heq
          subst heq
          exact (List.nodup_cons.mp hnd).1 hs')]
    · rw [hcount a (List.mem_cons_self a L), if_neg (by
          intro heq
          subst heq
          exact (List.nodup_cons.mp hnd).1 hs'),
        ih (List.nodup_cons.mp hnd).2 hs'
          (fun s' hs' => hcount s' (List.mem_cons_of_mem a hs'))]

/-! ### Theorems for claim C5 -/

/-- **C5.** Every transition line of the base automaton text (every
non-blank line; the lines are already stripped as written by
`fst.write`) appears unchanged in the fuzzy automaton text, in its
original relative order, before all appended self-loops; no original
transition is modified or removed. -/
theorem fuzzy_preserves_transitions (inputLines words : List String)
    (h : ∀ l ∈ inputLines, strip l = l) :
    fuzzyLines inputLines words =
      inputLines.filter (fun l => l != "") ++
        (fuzzyLoops inputLines words).map renderTransition := by
  have hk : keptLines inputLines = inputLines.filter (fun l => l != "") := by
    unfold keptLines
    rw [List.map_congr_left h, List.map_id']
  unfold fuzzyLines
  rw [hk]

/-- Witness for C5 on a concrete two-transition automaton. -/
theorem fuzzy_preserves_transitions_witness :
    fuzzyLines ["0 1 hello hello 1.0", "1 2 a b 0.5"] ["hello"] =
      (["0 1 hello hello 1.0", "1 2 a b 0.5"].filter (fun l => l != "")) ++
        (fuzzyLoops ["0 1 hello hello 1.0", "1 2 a b 0.5"]
          ["hello"]).map renderTransition :=
  fuzzy_preserves_transitions ["0 1 hello hello 1.0", "1 2 a b 0.5"]
    ["hello"] (by decide)

/-! ### Theorems for claim C6 -/

/-- **C6 counterexample.** As stated, the claim counts self-loops in the
whole fuzzy automaton output.  If the base automaton itself already
contains the line `0 0 <eps> <eps> 0.0` (a legal transition per the
automaton text format), that line is copied unchanged and then the
epsilon self-loop for source state `0` is appended, so the output
contains the epsilon self-loop for `0` twice, not exactly once. -/
theorem fuzzy_self_loops_counterexample :
    firstToken "0 0 <eps> <eps> 0.0" = "0" ∧
    (fuzzyLines ["0 0 <eps> <eps> 0.0"] []).count
      (renderTransition ⟨"0", "0", EPS, EPS, "0.0"⟩) = 2 := by
  constructor
  · decide
  · decide

/-- **C6 (amended).** In the self-loop section appended by
`_create_fuzzy_fst` (hence in the whole output whenever the base
automaton contains no line that renders identically to a generated
self-loop): for every state appearing as a transition source in the base
automaton there is exactly one epsilon self-loop (`<eps>`/`<eps>`, weight
0.0) and exactly one self-loop per vocabulary word not starting with `<`
or `_` (word input, `<eps>` output, weight 1.0); a state never appearing
as a source receives zero self-loops. -/
theorem fuzzy_self_loops_amended (inputLines words : List String)
    (hw : words.Nodup) (_hne : ∀ w ∈ words, w ≠ "") :
    (∀ s ∈ (keptLines inputLines).map firstToken,
      (fuzzyLoops inputLines words).count ⟨s, s, EPS, EPS, "0.0"⟩ = 1 ∧
      ∀ w ∈ words, isMetaWord w = false →
        (fuzzyLoops inputLines words).count ⟨s, s, w, EPS, "1.0"⟩ = 1) ∧
    (∀ s, s ∉ (keptLines inputLines).map firstToken →
      (fuzzyLoops inputLines words).filter (fun t => t.src == s) = []) := by
  constructor
  · intro s hs
    have hmem : s ∈ sourceStates inputLines := mem_sourceStates.mpr hs
    constructor
    · exact count_flatMap_single (selfLoops words) _
        (nodup_sourceStates inputLines) hmem
        (fun s' _ => count_selfLoops_eps words s s')
    · intro w hwin hmeta
      exact count_flatMap_single (selfLoops words) _
        (nodup_sourceStates inputLines) hmem
        (fun s' _ => count_selfLoops_word words s s' w hw hmeta hwin)
  · intro s hs
    apply List.filter_eq_nil_iff.mpr
    intro t ht hbeq
    rw [beq_iff_eq] at hbeq
    rcases List.mem_flatMap.mp ht with ⟨s', hs', hts'⟩
    have : t.src = s' := src_mem_selfLoops hts'
    exact hs (mem_sourceStates.mp ((hbeq ▸ this) ▸ hs'))

/-- Witness for C6 (amended) on a concrete automaton with one source
state `0`, one sink-only state `1`, vocabulary `{"hello", "<eps>"}`. -/
theorem fuzzy_self_loops_amended_witness :
    ("0" ∈ (keptLines ["0 1 hello hello 1.0"]).map firstToken ∧
      (fuzzyLoops ["0 1 hello hello 1.0"] ["hello", "<eps>"]).count
        ⟨"0", "0", EPS, EPS, "0.0"⟩ = 1 ∧
      (fuzzyLoops ["0 1 hello hello 1.0"] ["hello", "<eps>"]).count
        ⟨"0", "0", "hello", EPS, "1.0"⟩ = 1) ∧
    (fuzzyLoops ["0 1 hello hello 1.0"] ["hello", "<eps>"]).filter
      (fun t => t.src == "1") = [] := by
  have h := fuzzy_self_loops_amended ["0 1 hello hello 1.0"]
    ["hello", "<eps>"] (by decide) (by decide)
  have hs : "0" ∈ (keptLines ["0 1 hello hello 1.0"]).map firstToken := by
    decide
  refine ⟨⟨hs, (h.1 "0" hs).1, (h.1 "0" hs).2 "hello" (by decide)
    (by decide)⟩, h.2 "1" (by decide)⟩

/-! ### The training orchestrator (`train`, lines 37-136)

`train` computes the fresh `TrainingInfo` fingerprint, skips when it
matches the stored record, and otherwise deletes the record (line 69),
runs the build stages, and rewrites the record only after the last stage
(lines 131-136).  The file system is abstracted to the parts the claims
talk about: the `training_info.json` record, the `conf` directory copied
from the model at lines 77-81, and the `data` directory deleted at lines
84-86 and repopulated by the stages.  (The `graph_*` glob loop at lines
88-92 skips directories — its condition is `is_dir`, not `not is_dir` —
so prior graph directories are in fact left in place.)  Each stage either
succeeds or raises; the outcomes are environment parameters. -/

structure TrainingInfo where
  model_version : String
  sentences_hash : String
  things_hash : String
deriving DecidableEq, Repr

inductive Stage where
  | createIntents
  | createLexicon
  | prepareLang
  | createArpa
  | createFuzzyFst
  | mkgraph
  | prepareOnlineDecoding
deriving DecidableEq, Repr

structure TrainEnv where
  /-- The fingerprint computed at lines 49-53 from the model version, the
  sentences hash and the things hash. -/
  freshInfo : TrainingInfo
  /-- Content token of `model_dir/conf`, copied to `train_dir/conf`. -/
  modelConf : Nat
  /-- Content token of the data directory a successful build produces. -/
  builtData : Nat
  /-- Outcome of each build stage (external processes may fail). -/
  stageOk : Stage → Bool

structure TrainFS where
  /-- `training_info.json` contents, when the file exists. -/
  trainingInfoFile : Option TrainingInfo
  /-- `train_dir/conf` contents, when the directory exists. -/
  confDir : Option Nat
  /-- `train_dir/data` contents, when the directory exists. -/
  dataDir : Option Nat
deriving DecidableEq, Repr

inductive TrainResult where
  | skipped
  | completed
  | failed (s : Stage)
deriving DecidableEq, Repr

/-- The build body after the cache check: lines 64-136.  A failing stage
raises, leaving the file system as it was at that point. -/
def runStages (env : TrainEnv) (fs : TrainFS) : TrainResult × TrainFS :=
  if env.stageOk Stage.createIntents = false then
    (.failed .createIntents, fs)
  else
    let fs2 : TrainFS :=
      { fs with confDir := some env.modelConf, dataDir := none }
    if env.stageOk Stage.createLexicon = false then
      (.failed .createLexicon, fs2)
    else if env.stageOk Stage.prepareLang = false then
      (.failed .prepareLang, fs2)
    else if env.stageOk Stage.createArpa = false then
      (.failed .createArpa, fs2)
    else if env.stageOk Stage.createFuzzyFst = false then
      (.failed .createFuzzyFst, fs2)
    else if env.stageOk Stage.mkgraph = false then
      (.failed .mkgraph, fs2)
    else if env.stageOk Stage.prepareOnlineDecoding = false then
      (.failed .prepareOnlineDecoding, fs2)
    else
      (.completed, { fs2 with
        trainingInfoFile := some env.freshInfo,
        dataDir := some env.builtData })

/-- `train(model, settings, things, force_retrain)`: skip when
`force_retrain` is false and the stored record equals the fresh
fingerprint; otherwise delete the record (line 69) and run the build. -/
def train (force_retrain : Bool) (env : TrainEnv) (fs : TrainFS) :
    TrainResult × TrainFS :=
  if force_retrain = false ∧ fs.trainingInfoFile = some env.freshInfo then
    (.skipped, fs)
  else
    runStages env { fs with trainingInfoFile := none }

theorem runStages_ne_skipped (env : TrainEnv) (fs : TrainFS) :
    (runStages env fs).1 ≠ .skipped := by
  unfold runStages
  split
  · simp
  · split
    · simp
    · split
      · simp
      · split
        · simp
        · split
          · simp
          · split
            · simp
            · split <;> simp

theorem runStages_failed_record (env : TrainEnv) (fs : TrainFS) (s : Stage)
    (h : (runStages env fs).1 = .failed s) :
    (runStages env fs).2.trainingInfoFile = fs.trainingInfoFile := by
  unfold runStages
  split
  · rfl
  · split
    · rfl
    · split
      · rfl
      · split
        · rfl
        · split
          · rfl
          · split
            · rfl
            · split
              · rfl
              · exfalso
                unfold runStages at h
                simp_all

theorem runStages_completed_iff (env : TrainEnv) (fs : TrainFS) :
    (runStages env fs).1 = .completed ↔
      ∀ s : Stage, env.stageOk s = true := by
  unfold runStages
  constructor
  · intro h s
    by_contra hbad
    rw [Bool.not_eq_true] at hbad
    cases s <;> simp_all <;> split at h <;> simp_all <;>
      split at h <;> simp_all <;> split at h <;> simp_all <;>
      split at h <;> simp_all <;> split at h <;> simp_all <;>
      split at h <;> simp_all
  · intro h
    simp [h Stage.createIntents, h Stage.createLexicon,
      h Stage.prepareLang, h Stage.createArpa, h Stage.createFuzzyFst,
      h Stage.mkgraph, h Stage.prepareOnlineDecoding]

theorem runStages_completed_record (env : TrainEnv) (fs : TrainFS)
    (h : (runStages env fs).1 = .completed) :
    (runStages env fs).2.trainingInfoFile = some env.freshInfo := by
  have hall := (runStages_completed_iff env fs).mp h
  unfold runStages
  simp [hall Stage.createIntents, hall Stage.createLexicon,
    hall Stage.prepareLang, hall Stage.createArpa, hall Stage.createFuzzyFst,
    hall Stage.mkgraph, hall Stage.prepareOnlineDecoding]

/-! ### Theorems for claim C1 -/

/-- **C1.** A call to `train` skips training (returns right after the
cache check, with the file system unchanged) if and only if
`force_retrain` is false, the training-info record exists, and the stored
record equals the freshly computed fingerprint on all three fields;
in every other case the build body runs (completing or failing at some
stage). -/
theorem train_skip_iff (force_retrain : Bool) (env : TrainEnv)
    (fs : TrainFS) :
    ((train force_retrain env fs).1 = .skipped ↔
      force_retrain = false ∧ fs.trainingInfoFile = some env.freshInfo) ∧
    ((train force_retrain env fs).1 = .skipped →
      (train force_retrain env fs).2 = fs) ∧
    ((train force_retrain env fs).1 ≠ .skipped →
      (train force_retrain env fs).1 = .completed ∨
        ∃ s, (train force_retrain env fs).1 = .failed s) := by
  by_cases hc : force_retrain = false ∧
      fs.trainingInfoFile = some env.freshInfo
  · unfold train
    rw [if_pos hc]
    exact ⟨⟨fun _ => hc, fun _ => rfl⟩, fun _ => rfl, fun h => absurd rfl h⟩
  · unfold train
    rw [if_neg hc]
    refine ⟨⟨fun hsk => absurd hsk (runStages_ne_skipped env _),
      fun hcc => absurd hcc hc⟩,
      fun hsk => absurd hsk (runStages_ne_skipped env _), fun _ => ?_⟩
    rcases hr : (runStages env { fs with trainingInfoFile := none }).1 with
      _ | _ | s
    · exact absurd hr (runStages_ne_skipped env _)
    · exact Or.inl rfl
    · exact Or.inr ⟨s, rfl⟩

/-- Witness for C1: with a matching stored record and `force_retrain =
false` the call skips and leaves the state unchanged; with a mismatched
record it does not skip. -/
theorem train_skip_iff_witness :
    (train false
        ⟨⟨"1.0", "aa", "bb"⟩, 1, 2, fun _ => true⟩
        ⟨some ⟨"1.0", "aa", "bb"⟩, some 0, some 0⟩).1 = .skipped ∧
    (train false
        ⟨⟨"1.0", "aa", "bb"⟩, 1, 2, fun _ => true⟩
        ⟨some ⟨"1.0", "aa", "bb"⟩, some 0, some 0⟩).2 =
      ⟨some ⟨"1.0", "aa", "bb"⟩, some 0, some 0⟩ ∧
    (train false
        ⟨⟨"1.0", "aa", "bb"⟩, 1, 2, fun _ => true⟩
        ⟨some ⟨"1.0", "old", "bb"⟩, some 0, some 0⟩).1 ≠ .skipped := by
  have h1 := train_skip_iff false
    ⟨⟨"1.0", "aa", "bb"⟩, 1, 2, fun _ => true⟩
    ⟨some ⟨"1.0", "aa", "bb"⟩, some 0, some 0⟩
  have h2 := train_skip_iff false
    ⟨⟨"1.0", "aa", "bb"⟩, 1, 2, fun _ => true⟩
    ⟨some ⟨"1.0", "old", "bb"⟩, some 0, some 0⟩
  have hsk := h1.1.mpr ⟨rfl, rfl⟩
  exact ⟨hsk, h1.2.1 hsk, fun hc => by
    have := h2.1.mp hc
    simp at this⟩

/-! ### Theorems for claim C2 -/

/-- **C2.** On the non-skip path the record file is deleted before any
build stage runs and rewritten only after every stage succeeds: a run
completes exactly when all stages succeed, and then the record holds the
fresh fingerprint; if any stage fails, no record exists afterwards and a
subsequent `train` call with the same inputs cannot skip (it performs a
full rebuild). -/
theorem train_record_atomicity (force_retrain : Bool) (env : TrainEnv)
    (fs : TrainFS)
    (hns : ¬ (force_retrain = false ∧
      fs.trainingInfoFile = some env.freshInfo)) :
    ((train force_retrain env fs).1 = .completed ↔
      ∀ s : Stage, env.stageOk s = true) ∧
    ((train force_retrain env fs).1 = .completed →
      (train force_retrain env fs).2.trainingInfoFile =
        some env.freshInfo) ∧
    (∀ s, (train force_retrain env fs).1 = .failed s →
      (train force_retrain env fs).2.trainingInfoFile = none ∧
      ∀ force2 : Bool,
        (train force2 env (train force_retrain env fs).2).1 ≠ .skipped) := by
  unfold train
  rw [if_neg hns]
  refine ⟨runStages_completed_iff env _, runStages_completed_record env _,
    fun s hf => ?_⟩
  have hrec : (runStages env { fs with trainingInfoFile := none
      }).2.trainingInfoFile = none :=
    runStages_failed_record env _ s hf
  refine ⟨hrec, fun force2 => ?_⟩
  rw [if_neg (fun hc => by rw [hrec] at hc; exact Option.noConfusion hc.2)]
  exact runStages_ne_skipped env _

/-- Witness for C2: a build whose `mkgraph` stage fails leaves no record,
and the next call does not skip; a build with all stages succeeding
completes and writes the fresh record. -/
theorem train_record_atomicity_witness :
    (train true
        ⟨⟨"1.0", "aa", "bb"⟩, 1, 2, fun s => s != Stage.mkgraph⟩
        ⟨some ⟨"1.0", "aa", "bb"⟩, some 0, some 0⟩).1 = .failed .mkgraph ∧
    (train true
        ⟨⟨"1.0", "aa", "bb"⟩, 1, 2, fun s => s != Stage.mkgraph⟩
        ⟨some ⟨"1.0", "aa", "bb"⟩, some 0, some 0⟩).2.trainingInfoFile =
      none ∧
    (train false
        ⟨⟨"1.0", "aa", "bb"⟩, 1, 2, fun s => s != Stage.mkgraph⟩
        (train true
          ⟨⟨"1.0", "aa", "bb"⟩, 1, 2, fun s => s != Stage.mkgraph⟩
          ⟨some ⟨"1.0", "aa", "bb"⟩, some 0, some 0⟩).2).1 ≠ .skipped := by
  have h := train_record_atomicity true
    ⟨⟨"1.0", "aa", "bb"⟩, 1, 2, fun s => s != Stage.mkgraph⟩
    ⟨some ⟨"1.0", "aa", "bb"⟩, some 0, some 0⟩
    (by intro hc; exact Bool.noConfusion hc.1)
  have hf : (train true
      ⟨⟨"1.0", "aa", "bb"⟩, 1, 2, fun s => s != Stage.mkgraph⟩
      ⟨some ⟨"1.0", "aa", "bb"⟩, some 0, some 0⟩).1 = .failed .mkgraph := by
    decide
  have h3 := h.2.2 Stage.mkgraph hf
  exact ⟨hf, h3.1, h3.2 false⟩

/-! ### Theorems for claim C7 -/

/-- **C7 counterexample.** The claim says a failing build leaves the
prior build's conf and data directories untouched.  It does not: on the
non-skip path the prior `data` directory is deleted (lines 84-86) and the
prior `conf` directory is replaced by a fresh copy of the model's conf
(lines 77-81) before the Kaldi stages run, so when `mkgraph` later fails
the prior data directory is gone. -/
theorem prior_artifacts_counterexample :
    (train false
        ⟨⟨"2.0", "h2", "t2"⟩, 7, 9, fun s => s != Stage.mkgraph⟩
        ⟨some ⟨"1.0", "h1", "t1"⟩, some 1, some 2⟩).1 = .failed .mkgraph ∧
    (train false
        ⟨⟨"2.0", "h2", "t2"⟩, 7, 9, fun s => s != Stage.mkgraph⟩
        ⟨some ⟨"1.0", "h1", "t1"⟩, some 1, some 2⟩).2.dataDir = none ∧
    (train false
        ⟨⟨"2.0", "h2", "t2"⟩, 7, 9, fun s => s != Stage.mkgraph⟩
        ⟨some ⟨"1.0", "h1", "t1"⟩, some 1, some 2⟩).2.dataDir ≠ some 2 ∧
    (train false
        ⟨⟨"2.0", "h2", "t2"⟩, 7, 9, fun s => s != Stage.mkgraph⟩
        ⟨some ⟨"1.0", "h1", "t1"⟩, some 1, some 2⟩).2.confDir ≠ some 1 := by
  refine ⟨by decide, by decide, by decide, by decide⟩

/-- **C7 (amended).** A failing non-skip build does not leave the prior
conf/data directories untouched (they are replaced/deleted before the
stages run), but the half-built artifact set is never served as current:
the record was deleted before the stages and never rewritten, so after
any stage failure no record exists and every subsequent `train` call
takes the full-rebuild path instead of skipping. -/
theorem prior_artifacts_amended (force_retrain : Bool) (env : TrainEnv)
    (fs : TrainFS)
    (hns : ¬ (force_retrain = false ∧
      fs.trainingInfoFile = some env.freshInfo))
    (s : Stage) (hf : (train force_retrain env fs).1 = .failed s) :
    (train force_retrain env fs).2.trainingInfoFile = none ∧
    (s ≠ .createIntents →
      (train force_retrain env fs).2.confDir = some env.modelConf ∧
      (train force_retrain env fs).2.dataDir = none) ∧
    ∀ force2 : Bool,
      (train force2 env (train force_retrain env fs).2).1 ≠ .skipped := by
  unfold train at hf ⊢
  rw [if_neg hns] at hf ⊢
  have hrec : (runStages env { fs with trainingInfoFile := none
      }).2.trainingInfoFile = none :=
    runStages_failed_record env _ s hf
  refine ⟨hrec, ?_, fun force2 => ?_⟩
  · intro hsne
    unfold runStages at hf ⊢
    split at hf
    · exact absurd (TrainResult.failed.inj hf).symm hsne
    · split at hf
      · simp_all
      · split at hf
        · simp_all
        · split at hf
          · simp_all
          · split at hf
            · simp_all
            · split at hf
              · simp_all
              · split at hf
                · simp_all
                · exact absurd hf (by simp)
  · rw [if_neg (fun hc => by rw [hrec] at hc; exact Option.noConfusion hc.2)]
    exact runStages_ne_skipped env _

/-- Witness for C7 (amended) at the counterexample's input. -/
theorem prior_artifacts_amended_witness :
    (train false
        ⟨⟨"2.0", "h2", "t2"⟩, 7, 9, fun s => s != Stage.mkgraph⟩
        ⟨some ⟨"1.0", "h1", "t1"⟩, some 1, some 2⟩).2.trainingInfoFile =
      none ∧
    (train false
        ⟨⟨"2.0", "h2", "t2"⟩, 7, 9, fun s => s != Stage.mkgraph⟩
        ⟨some ⟨"1.0", "h1", "t1"⟩, some 1, some 2⟩).2.confDir = some 7 ∧
    (train false
        ⟨⟨"2.0", "h2", "t2"⟩, 7, 9, fun s => s != Stage.mkgraph⟩
        (train false
          ⟨⟨"2.0", "h2", "t2"⟩, 7, 9, fun s => s != Stage.mkgraph⟩
          ⟨some ⟨"1.0", "h1", "t1"⟩, some 1, some 2⟩).2).1 ≠ .skipped := by
  have h := prior_artifacts_amended false
    ⟨⟨"2.0", "h2", "t2"⟩, 7, 9, fun s => s != Stage.mkgraph⟩
    ⟨some ⟨"1.0", "h1", "t1"⟩, some 1, some 2⟩
    (by intro hc; simp at hc)
    Stage.mkgraph (by decide)
  exact ⟨h.1, (h.2.1 (by decide)).1, h.2.2 false⟩

/-! ### Sentences hashing (`_get_sentences_hash`, lines 522-549)

The hash feeds, per relevant file, only the first `chunk_size = 8192`
bytes into one running SHA-256: first the builtin sentences file for the
model's language, then, for each configured custom-sentences root, the
sorted `*.yaml` files of the language directory (or of the
language-family directory when the language directory does not exist).
We model file contents as byte lists, the directory-selection logic
explicitly, and the digest as an arbitrary function of the byte stream
fed to the hasher (a running SHA-256 digest is a function of the
concatenation of the updates). -/

def chunk_size : Nat := 8192

structure SentencesDir where
  /-- Filename/content pairs of the directory's files. -/
  files : List (String × List Nat)

structure SentencesFS where
  /-- Bytes of `settings.sentences / f"{model.sentences_language}.yaml"`. -/
  builtinBytes : List Nat
  /-- Per custom-sentences root: the language-tagged directory, when it
  exists, and the language-family directory, when it exists. -/
  customDirs : List (Option SentencesDir × Option SentencesDir)

/-- `dir / model.language` if it is a directory, else
`dir / model.language_family` if it is a directory, else skip. -/
def selectDir (p : Option SentencesDir × Option SentencesDir) :
    Option SentencesDir :=
  match p with
  | (some d, _) => some d
  | (none, some d) => some d
  | (none, none) => none

/-- `name.endswith(".yaml")` for the `*.yaml` glob. -/
def hasYamlExt (name : String) : Bool :=
  ".yaml".toList.isSuffixOf name.toList

/-- `sorted(dir_for_language.glob("*.yaml"))`: the `.yaml` files in
sorted filename order. -/
def yamlFilesSorted (d : SentencesDir) : List (String × List Nat) :=
  (d.files.filter (fun f => hasYamlExt f.1)).insertionSort
    (fun a b => strLeRel a.1 b.1)

/-- The byte contents of the relevant files, in hashing order. -/
def relevantFiles (fs : SentencesFS) : List (List Nat) :=
  fs.builtinBytes ::
    fs.customDirs.flatMap (fun p =>
      match selectDir p with
      | none => []
      | some d => (yamlFilesSorted d).map Prod.snd)

/-- The byte stream fed to the running hasher: per relevant file, only
`file.read(chunk_size)`. -/
def sentencesHashInput (fs : SentencesFS) : List Nat :=
  (relevantFiles fs).flatMap (fun bytes => bytes.take chunk_size)

/-- `_get_sentences_hash`, with the digest function `H` (SHA-256)
abstracted: the returned hex digest is a function of the bytes fed. -/
def sentencesHash (H : List Nat → String) (fs : SentencesFS) : String :=
  H (sentencesHashInput fs)

/-! ### Theorems for claim C8 -/

/-- **C8.** `_get_sentences_hash` depends only on the first 8192 bytes of
each relevant file: whenever two file-system states have relevant-file
lists that agree file-by-file on their first 8192 bytes, the digest is
equal — for any digest function, i.e. a change only beyond the chunk
boundary never changes the fingerprint. -/
theorem sentences_hash_chunked (H : List Nat → String)
    (fs1 fs2 : SentencesFS)
    (h : (relevantFiles fs1).map (fun bytes => bytes.take chunk_size) =
      (relevantFiles fs2).map (fun bytes => bytes.take chunk_size)) :
    sentencesHash H fs1 = sentencesHash H fs2 := by
  unfold sentencesHash sentencesHashInput
  rw [List.flatMap_def, List.flatMap_def, h]

/-- Witness for C8: two builtin sentences files of 8193 bytes that agree
on the first 8192 bytes but differ in the last byte hash identically,
for every digest function; and the two files really differ. -/
theorem sentences_hash_chunked_witness :
    (∀ H : List Nat → String,
      sentencesHash H ⟨List.replicate 8193 0, []⟩ =
        sentencesHash H ⟨List.replicate 8192 0 ++ [1], []⟩) ∧
    List.replicate 8193 (0 : Nat) ≠ List.replicate 8192 0 ++ [1] := by
  constructor
  · intro H
    apply sentences_hash_chunked H
    have h1 : (List.replicate 8193 (0 : Nat)).take chunk_size =
        List.replicate 8192 0 := by
      rw [List.replicate_succ' 8192,
        List.take_left' (by rw [List.length_replicate]; rfl)]
    have h2 : (List.replicate 8192 (0 : Nat) ++ [1]).take chunk_size =
        List.replicate 8192 0 :=
      List.take_left' (by rw [List.length_replicate]; rfl)
    simp only [relevantFiles, List.flatMap_nil, List.map_cons, List.map_nil]
    rw [h1, h2]
  · intro hcontra
    have hdrop := congrArg (List.drop 8192) hcontra
    rw [List.replicate_succ' 8192,
      List.drop_left' (by rw [List.length_replicate]),
      List.drop_left' (by rw [List.length_replicate])] at hdrop
    exact absurd (List.cons.inj hdrop).1 (by decide)

/-! ### Single-flight build registry (claim C9)

Modelled from the spec: the server-side code that consults
`State.model_train_tasks` under `State.model_train_tasks_lock` is not
among the provided sources (`const.py` only declares the registry and its
lock); spec §5 and the design notes describe it: "a mutex-guarded mapping
from key to a shared, awaitable handle; first caller creates and
registers the handle, later callers for the same key attach to it".  The
lock serializes the check-and-register critical sections, so two
concurrent requests execute them in some order; we model one such order
as two sequential `requestTrain` steps. -/

structure TaskRegistry where
  /-- `model_train_tasks`: model id → in-flight build task handle. -/
  tasks : List (String × Nat)
  /-- Source of fresh task handles. -/
  nextTask : Nat
deriving DecidableEq, Repr

/-- One check-and-register critical section: attach to the in-flight
task for the model id when present, otherwise create and register a new
one.  Returns the awaited task handle, whether a new build task was
started, and the new registry state. -/
def requestTrain (r : TaskRegistry) (modelId : String) :
    Nat × Bool × TaskRegistry :=
  match r.tasks.lookup modelId with
  | some t => (t, false, r)
  | none =>
    (r.nextTask, true, ⟨(modelId, r.nextTask) :: r.tasks, r.nextTask + 1⟩)

/-! ### Theorem for claim C9 -/

/-- **C9.** Single-flight: when two requests for the same model id pass
their lock-serialized check-and-register sections in either order, the
second caller attaches to the task registered by the first — it awaits
the same task handle, starts no second build task, and leaves the
registry unchanged; hence exactly one build task per model id executes
and both callers observe that task's outcome. -/
theorem single_flight (r : TaskRegistry) (modelId : String) :
    (requestTrain (requestTrain r modelId).2.2 modelId).1 =
      (requestTrain r modelId).1 ∧
    (requestTrain (requestTrain r modelId).2.2 modelId).2.1 = false ∧
    (requestTrain (requestTrain r modelId).2.2 modelId).2.2 =
      (requestTrain r modelId).2.2 := by
  unfold requestTrain
  cases h : r.tasks.lookup modelId with
  | some t => simp [h]
  | none => simp [h, List.lookup]

end SpeechToPhrase
